import Mathlib

/-!
Verification of the Verilator co-simulation driver (`src/sim/verilator_main.cpp`).

The driver models a fixed-latency memory for a hardware core (the DUT).  Per
clock cycle it: reads the DUT's outstanding memory request, applies a
byte-enable-masked write, pushes a response record `(valid, rdata, err)` into
three parallel latency queues of length `mem_latency`, clocks the DUT, drives
the queue entry at index `mem_latency - 1` onto the DUT's inbound response
signals, and shifts the queues by one slot.  A run terminates through the
`end_cnt` counter once a request to address 0 has been seen.

The DUT itself is an opaque external device (spec sections 1 and 2); its
outbound pin values observed during cycle `k` are modelled as a stream
`r : Nat → DutReq`.  C arrays become Lean lists; reads of an array cell use
`List.get?` so an out-of-bounds access is visible as `none`; machine words are
`Nat` with explicit truncation (`% 256`, `% 2 ^ 32`) where the C code narrows.
-/

/-- Outbound DUT pins read by the driver: `mem_req_o`, `mem_addr_o`,
`mem_we_o`, `mem_be_o`, `mem_wdata_o` (lines 159-169). -/
structure DutReq where
  req : Bool
  addr : Nat
  we : Bool
  be : Nat
  wdata : Nat
deriving DecidableEq

/-- Inbound response signals driven onto the DUT: `mem_rvalid_i`,
`mem_rdata_i`, `mem_err_i` (lines 176-178). -/
structure MemResp where
  rvalid : Bool
  rdata : Nat
  err : Bool
deriving DecidableEq

/-- Simulator state: the memory image `mem` (byte buffer of size `mem_sz`) and
the three parallel latency queues `mem_rvalid_queue`, `mem_rdata_queue`,
`mem_err_queue` (lines 61, 66-68). -/
structure SimState where
  mem : List Nat
  rvalidQ : List Bool
  rdataQ : List Nat
  errQ : List Bool
deriving DecidableEq

/-- Effective address, line 159: `(top->mem_addr_o % mem_sz) & ~(mem_w/8-1)`.
`mem_addr_o` is a 32-bit unsigned value and `~(w8-1)` converts to the unsigned
32-bit value `2 ^ 32 - w8`, so the conjunction clears the low address bits. -/
def effAddr (a sz w8 : Nat) : Nat :=
  (a % sz) &&& (2 ^ 32 - w8)

/-- Byte `i` of a data word, as narrowed by assignment to `unsigned char`
(lines 115 and 163: `data >> (8*i)` stored into a byte). -/
def byteOf (w i : Nat) : Nat :=
  (w >>> (8 * i)) % 256

/-- Byte-enable masked write, lines 161-163: for each byte lane `i < mem_w/8`,
if bit `i` of `mem_be_o` is set, store byte `i` of `mem_wdata_o` at
`mem[addr+i]`. -/
def applyWrite (mem : List Nat) (addr wdata be w8 : Nat) : List Nat :=
  (List.range w8).foldl
    (fun m i => if be.testBit i then m.set (addr + i) (byteOf wdata i) else m) mem

/-- Read-data assembly, lines 167-169: `rdata = OR_i mem[addr+i] << (8*i)`
over the byte lanes. -/
def readWord (mem : List Nat) (addr w8 : Nat) : Nat :=
  (List.range w8).foldl (fun d i => d ||| (mem.getD (addr + i) 0) <<< (8 * i)) 0

/-- Memory image after the request of one cycle: the write is applied only when
`mem_req_o && mem_we_o` (line 160). -/
def memAfter (sz w8 : Nat) (mem : List Nat) (r : DutReq) : List Nat :=
  if r.req && r.we then applyWrite mem (effAddr r.addr sz w8) r.wdata r.be w8 else mem

/-- Valid flag pushed into the latency queue, line 165: the raw `mem_req_o`,
also on write requests. -/
def pushedValid (r : DutReq) : Bool :=
  r.req

/-- Error flag pushed into the latency queue, line 166: `addr >= mem_sz` where
`addr` is the already wrapped-and-aligned effective address. -/
def pushedErr (sz w8 : Nat) (r : DutReq) : Bool :=
  decide (sz ≤ effAddr r.addr sz w8)

/-- Read data pushed into the latency queue, lines 167-169: sampled from the
memory image after the write of the same cycle has been applied. -/
def pushedData (sz w8 : Nat) (mem : List Nat) (r : DutReq) : Nat :=
  readWord (memAfter sz w8 mem r) (effAddr r.addr sz w8) w8

/-- Queue shift, lines 180-184: `for (i = L-1; i > 0; i--) q[i] = q[i-1]`.
Walking downward copies each original `q[i-1]` into `q[i]`; slot 0 keeps its
value until the next cycle's push overwrites it. -/
def qadvance : List α → List α
  | [] => []
  | a :: l => a :: (a :: l).dropLast

/-- Queue state at the start of cycle `k`: slot 0 is overwritten with the
pushed value `x k` during cycle `k` (lines 165-169) and the queue is shifted
at the end of the cycle. -/
def qStateAt (x : Nat → α) (q0 : List α) : Nat → List α
  | 0 => q0
  | k + 1 => qadvance ((qStateAt x q0 k).set 0 (x k))

/-- Value driven onto an inbound response signal during cycle `k`: the queue
entry at index `L - 1`, read after the push of cycle `k` and before the shift
(line 176).  `none` means the index is outside the allocated queue. -/
def qDeliverAt (L : Nat) (x : Nat → α) (q0 : List α) (k : Nat) : Option α :=
  ((qStateAt x q0 k).set 0 (x k)).get? (L - 1)

/-- One iteration of the simulation loop, lines 158-191: read the request,
apply the masked write, push `(valid, rdata, err)` at slot 0, deliver the
entries at index `mem_latency - 1` onto the inbound signals, shift the queues.
`none` when the delivery index lies outside the allocated queues (the C code
would read out of bounds there). -/
def stepCycle (L sz w8 : Nat) (st : SimState) (r : DutReq) : Option (SimState × MemResp) :=
  let mem2 := memAfter sz w8 st.mem r
  let rvq := st.rvalidQ.set 0 (pushedValid r)
  let rdq := st.rdataQ.set 0 (pushedData sz w8 st.mem r)
  let erq := st.errQ.set 0 (pushedErr sz w8 r)
  match rvq.get? (L - 1), rdq.get? (L - 1), erq.get? (L - 1) with
  | some v, some d, some e =>
      some (⟨mem2, qadvance rvq, qadvance rdq, qadvance erq⟩, ⟨v, d, e⟩)
  | _, _, _ => none

/-- Per-program initial simulator state, lines 141-142: only the valid-flag
queue is zeroed; the data and error queues keep whatever they held before
(malloc garbage for the first program, residue afterwards), and the memory
image is the buffer as left by the loader. -/
def progInit (L : Nat) (mem0 : List Nat) (rd0 : List Nat) (er0 : List Bool) : SimState :=
  ⟨mem0, List.replicate L false, rd0, er0⟩

/-- Memory image at the start of cycle `k` of a run. -/
def memAt (sz w8 : Nat) (mem0 : List Nat) (r : Nat → DutReq) : Nat → List Nat
  | 0 => mem0
  | k + 1 => memAfter sz w8 (memAt sz w8 mem0 r k) (r k)

/-- Simulator state at the start of cycle `k` of a run; `none` once an
iteration performed an out-of-bounds queue access. -/
def simStateAt (L sz w8 : Nat) (st : SimState) (r : Nat → DutReq) : Nat → Option SimState
  | 0 => some st
  | k + 1 => (simStateAt L sz w8 st r k).bind fun s =>
      (stepCycle L sz w8 s (r k)).map Prod.fst

/-- Response driven onto the DUT's inbound signals during cycle `k`. -/
def respAt (L sz w8 : Nat) (st : SimState) (r : Nat → DutReq) (k : Nat) : Option MemResp :=
  (simStateAt L sz w8 st r k).bind fun s =>
    (stepCycle L sz w8 s (r k)).map Prod.snd

/-- Termination counter `end_cnt` before cycle `k`, lines 156 and 193-195:
once positive, or when the cycle's observed request is a valid request to
address 0, it increments at the end of the cycle. -/
def endCnt (r : Nat → DutReq) : Nat → Nat
  | 0 => 0
  | k + 1 =>
      let c := endCnt r k
      if 0 < c ∨ ((r k).req = true ∧ (r k).addr = 0) then c + 1 else c

/-- The run-to-completion loop `while (end_cnt < extra_cycles)` (line 157)
executes exactly `n` cycles: the counter reaches `extra_cycles` before cycle
`n` and not before any earlier cycle. -/
def haltsAt (r : Nat → DutReq) (extra n : Nat) : Prop :=
  extra ≤ endCnt r n ∧ ∀ k, k < n → endCnt r k < extra

/-- One parsed directive of the memory-image text format (spec section 6; the
textual lexing itself is an external collaborator format): `@hex` lines set the
word address, other hex tokens write consecutive 32-bit words. -/
inductive ProgItem where
  | setAddr : Nat → ProgItem
  | word : Nat → ProgItem
deriving DecidableEq

/-- Little-endian word write of the loader, lines 113-116:
`mem[addr+i] = data >> (8*i)` for `i = 0..3`. -/
def writeWordLE (mem : List Nat) (addr w : Nat) : List Nat :=
  (List.range 4).foldl (fun m i => m.set (addr + i) (byteOf w i)) mem

/-- One loader directive, lines 106-118: `@hex` sets `addr = hex * 4`; a data
token writes a word at `addr` and advances `addr` by 4. -/
def loadStep : List Nat × Nat → ProgItem → List Nat × Nat
  | (mem, _), .setAddr a => (mem, 4 * a)
  | (mem, addr), .word w => (writeWordLE mem addr w, addr + 4)

/-- Program-image loader, lines 101-120: starting at address 0, process the
directives in order.  Returns the final image and address. -/
def loadImage (mem : List Nat) (items : List ProgItem) : List Nat × Nat :=
  items.foldl loadStep (mem, 0)

/-- Value held by a 32-bit signed `int` after storing the integer `x`: the
conversion from the wider `long` of `strtol` (and `int` overflow on `addr +=
4`) truncates to 32 bits, two's complement. -/
def int32 (x : Int) : Int :=
  (x + 2 ^ 31) % 2 ^ 32 - 2 ^ 31

/-- Address-trace variant of one loader directive, with the loader's `int
addr` register modelled as a 32-bit signed value (line 101): records every
byte index expression `addr + i` of `mem[addr+i]` (line 115) exactly as the
code computes it — truncated to `int` width, but with no image-size modulo or
bound applied.  (The image-content model `loadStep` above is used only under
in-range hypotheses, where this truncation is the identity.) -/
def loadAccStep : Int × List Int → ProgItem → Int × List Int
  | (_, acc), .setAddr a => (int32 (4 * (a : Int)), acc)
  | (addr, acc), .word _ =>
      (int32 (addr + 4), acc ++ (List.range 4).map (fun i => int32 (addr + (i : Int))))

/-- All byte indices of `mem` accessed by the loader for a given directive
list (the address register starts at 0, line 101). -/
def loadAccesses (items : List ProgItem) : List Int :=
  (items.foldl loadAccStep (0, [])).2

/-- Little-endian word assembly used by the reference and dump writers,
lines 132 and 207: `mem[addr] | mem[addr+1]<<8 | mem[addr+2]<<16 |
mem[addr+3]<<24`. -/
def readWordLE (mem : List Nat) (addr : Nat) : Nat :=
  mem.getD addr 0 ||| (mem.getD (addr + 1) 0) <<< 8 |||
    (mem.getD (addr + 2) 0) <<< 16 ||| (mem.getD (addr + 3) 0) <<< 24

/-- Words emitted by `n` iterations of the dump loop from byte address `s`. -/
def dumpWords (mem : List Nat) (s : Nat) : Nat → List Nat
  | 0 => []
  | n + 1 => readWordLE mem s :: dumpWords mem (s + 4) n

/-- The `%08x` lines written for the byte range `[s, e)`, lines 131-134 and
206-209: `for (addr = s; addr < e; addr += 4)` runs `⌈(e-s)/4⌉` times. -/
def dumpRange (mem : List Nat) (s e : Nat) : List Nat :=
  dumpWords mem s ((e - s + 3) / 4)

/-- Byte indices of `mem` read by `n` iterations of the dump loop from `s`:
each iteration reads `mem[addr] .. mem[addr+3]`, with the raw descriptor
address, no modulo or bound applied. -/
def dumpAccessesN (s : Nat) : Nat → List Nat
  | 0 => []
  | n + 1 => s :: (s + 1) :: (s + 2) :: (s + 3) :: dumpAccessesN (s + 4) n

/-- Byte indices of `mem` read when dumping the range `[s, e)`. -/
def dumpAccesses (s e : Nat) : List Nat :=
  dumpAccessesN s ((e - s + 3) / 4)

/-- One stdio call of the reference/dump output block, tagged with whether the
`FILE*` handle it goes through is valid. -/
inductive FileOp where
  | reportError : FileOp
  | writeLine : Bool → Nat → FileOp
  | closeFile : Bool → FileOp
deriving DecidableEq

/-- The stdio calls performed by the reference/dump output block, lines
126-136 and 201-211: if `fopen` failed an error is printed to stderr, and the
code then still executes one `fprintf` per word of `[s, e)` and a final
`fclose`, all through the same (then NULL) handle. -/
def outputBlockOps (fopenOk : Bool) (mem : List Nat) (s e : Nat) : List FileOp :=
  (if fopenOk then [] else [FileOp.reportError]) ++
    (dumpRange mem s e).map (FileOp.writeLine fopenOk) ++ [FileOp.closeFile fopenOk]

/-- Request stream with a single valid read request (to address 4) at cycle 0
and an idle bus afterwards. -/
def oneReadAt0 : Nat → DutReq :=
  fun k => if k = 0 then ⟨true, 4, false, 0, 0⟩ else ⟨false, 0, false, 0, 0⟩

/-- Request stream with a single valid write request at cycle 0: address 0,
byte-enable bit 0 only, write data `0xAB`. -/
def oneWriteAt0 : Nat → DutReq :=
  fun k => if k = 0 then ⟨true, 0, true, 1, 171⟩ else ⟨false, 0, false, 0, 0⟩

/-- Request stream whose first (and only) valid request to address 0 is at
cycle 1; all other cycles show an idle or non-zero-address bus. -/
def zeroReqAt1 : Nat → DutReq :=
  fun k => if k = 1 then ⟨true, 0, false, 0, 0⟩ else ⟨false, 9, false, 0, 0⟩

/-- Idle request stream: the DUT never asserts `mem_req_o`. -/
def idleBus : Nat → DutReq :=
  fun _ => ⟨false, 0, false, 0, 0⟩

/-- Per-program state as left by a prior batch iteration whose residual
`mem_rdata_queue` was `[0, 0]` (latency 2, zeroed memory of 8 bytes). -/
def residueA : SimState :=
  progInit 2 (List.replicate 8 0) [0, 0] [false, false]

/-- Same as `residueA` except the prior run left `99` in the residual
`mem_rdata_queue` slot 1. -/
def residueB : SimState :=
  progInit 2 (List.replicate 8 0) [0, 99] [false, false]

/-! ### Basic queue lemmas -/

theorem qadvance_length (l : List α) : (qadvance l).length = l.length := by
  cases l with
  | nil => rfl
  | cons a t => simp [qadvance]

theorem qStateAt_length (x : Nat → α) (q0 : List α) (k : Nat) :
    (qStateAt x q0 k).length = q0.length := by
  induction k with
  | zero => rfl
  | succ k ih => simp [qStateAt, qadvance_length, ih]

theorem qadvance_get?_zero (a : α) (t : List α) :
    (qadvance (a :: t)).get? 0 = some a := rfl

theorem qadvance_get?_succ (l : List α) (i : Nat) (h : i + 1 < l.length) :
    (qadvance l).get? (i + 1) = l.get? i := by
  cases l with
  | nil => simp at h
  | cons a t =>
      show ((a :: t).dropLast).get? i = (a :: t).get? i
      rw [List.dropLast_eq_take]
      exact List.get?_take (by simpa using h)

/-- Slot `i ≥ 1` of the queue at the start of cycle `k` holds the value pushed
`i` cycles earlier, once `i` pushes have happened. -/
theorem qStateAt_get?_pushed (x : Nat → α) (q0 : List α) :
    ∀ k i, 1 ≤ i → i ≤ k → i < q0.length →
      (qStateAt x q0 k).get? i = some (x (k - i)) := by
  intro k
  induction k with
  | zero => intro i h1 h2 _; omega
  | succ k ih =>
      intro i h1 h2 hL
      have hPlen : ((qStateAt x q0 k).set 0 (x k)).length = q0.length := by
        simp [qStateAt_length]
      obtain ⟨j, rfl⟩ : ∃ j, i = j + 1 := ⟨i - 1, by omega⟩
      rw [show qStateAt x q0 (k + 1) = qadvance ((qStateAt x q0 k).set 0 (x k)) from rfl]
      rw [qadvance_get?_succ _ j (by omega)]
      rcases Nat.eq_zero_or_pos j with hj | hj
      · subst hj
        rw [List.get?_set_eq_of_lt _ (by rw [qStateAt_length]; omega)]
        simp
      · rw [List.get?_set_ne _ _ (by omega)]
        rw [ih j hj (by omega) (by omega)]
        rw [show k + 1 - (j + 1) = k - j from by omega]

/-- Slot `i > k` of the queue at the start of cycle `k` still holds the initial
entry that started `k` slots closer to the front. -/
theorem qStateAt_get?_stale (x : Nat → α) (q0 : List α) :
    ∀ k i, k < i → i < q0.length →
      (qStateAt x q0 k).get? i = q0.get? (i - k) := by
  intro k
  induction k with
  | zero => intro i _ _; rfl
  | succ k ih =>
      intro i h1 hL
      obtain ⟨j, rfl⟩ : ∃ j, i = j + 1 := ⟨i - 1, by omega⟩
      rw [show qStateAt x q0 (k + 1) = qadvance ((qStateAt x q0 k).set 0 (x k)) from rfl]
      rw [qadvance_get?_succ _ j (by simp [qStateAt_length]; omega)]
      rw [List.get?_set_ne _ _ (by omega)]
      rw [ih j (by omega) (by omega)]
      congr 1
      omega

/-- For latency `L ≥ 1`, the entry delivered during cycle `T + (L - 1)` is
exactly the entry pushed during cycle `T`. -/
theorem qDeliverAt_pushed (L : Nat) (x : Nat → α) (q0 : List α)
    (hL : 1 ≤ L) (hlen : q0.length = L) (T : Nat) :
    qDeliverAt L x q0 (T + (L - 1)) = some (x T) := by
  unfold qDeliverAt
  rcases Nat.lt_or_ge L 2 with h2 | h2
  · have hL1 : L = 1 := by omega
    subst hL1
    rw [List.get?_set_eq_of_lt _ (by rw [qStateAt_length]; omega)]
    simp
  · rw [List.get?_set_ne _ _ (by omega)]
    rw [qStateAt_get?_pushed x q0 (T + (L - 1)) (L - 1) (by omega) (by omega) (by omega)]
    rw [show T + (L - 1) - (L - 1) = T from by omega]

/-- During the first `L - 1` cycles the delivered entry is still an initial
queue entry, untouched by any push. -/
theorem qDeliverAt_stale (L : Nat) (x : Nat → α) (q0 : List α)
    (hlen : q0.length = L) (k : Nat) (hk : k + 1 < L) :
    qDeliverAt L x q0 k = q0.get? (L - 1 - k) := by
  unfold qDeliverAt
  rw [List.get?_set_ne _ _ (by omega)]
  exact qStateAt_get?_stale x q0 k (L - 1) (by omega) (by omega)

/-! ### Characterizing a run of the simulation loop -/

/-- Valid flags pushed during a run, cycle by cycle. -/
def pushV (r : Nat → DutReq) : Nat → Bool :=
  fun j => pushedValid (r j)

/-- Read data pushed during a run, cycle by cycle. -/
def pushD (sz w8 : Nat) (mem0 : List Nat) (r : Nat → DutReq) : Nat → Nat :=
  fun j => pushedData sz w8 (memAt sz w8 mem0 r j) (r j)

/-- Error flags pushed during a run, cycle by cycle. -/
def pushE (sz w8 : Nat) (r : Nat → DutReq) : Nat → Bool :=
  fun j => pushedErr sz w8 (r j)

/-- For latency `L ≥ 1` every iteration succeeds, and the three queues evolve
independently as the generic shift pipeline over the pushed streams. -/
theorem simStateAt_eq (L sz w8 : Nat) (mem0 : List Nat) (rv0 : List Bool)
    (rd0 : List Nat) (er0 : List Bool) (r : Nat → DutReq)
    (hL : 1 ≤ L) (h1 : rv0.length = L) (h2 : rd0.length = L) (h3 : er0.length = L) :
    ∀ k, simStateAt L sz w8 ⟨mem0, rv0, rd0, er0⟩ r k =
      some ⟨memAt sz w8 mem0 r k,
            qStateAt (pushV r) rv0 k,
            qStateAt (pushD sz w8 mem0 r) rd0 k,
            qStateAt (pushE sz w8 r) er0 k⟩ := by
  intro k
  induction k with
  | zero => rfl
  | succ k ih =>
      have hv : ((qStateAt (pushV r) rv0 k).set 0 (pushV r k)).get? (L - 1) =
          some (((qStateAt (pushV r) rv0 k).set 0 (pushV r k)).get
            ⟨L - 1, by simp [qStateAt_length, h1]; omega⟩) :=
        List.get?_eq_get _
      have hd : ((qStateAt (pushD sz w8 mem0 r) rd0 k).set 0 (pushD sz w8 mem0 r k)).get? (L - 1) =
          some (((qStateAt (pushD sz w8 mem0 r) rd0 k).set 0 (pushD sz w8 mem0 r k)).get
            ⟨L - 1, by simp [qStateAt_length, h2]; omega⟩) :=
        List.get?_eq_get _
      have he : ((qStateAt (pushE sz w8 r) er0 k).set 0 (pushE sz w8 r k)).get? (L - 1) =
          some (((qStateAt (pushE sz w8 r) er0 k).set 0 (pushE sz w8 r k)).get
            ⟨L - 1, by simp [qStateAt_length, h3]; omega⟩) :=
        List.get?_eq_get _
      rw [show simStateAt L sz w8 ⟨mem0, rv0, rd0, er0⟩ r (k + 1) =
        (simStateAt L sz w8 ⟨mem0, rv0, rd0, er0⟩ r k).bind
          (fun s => (stepCycle L sz w8 s (r k)).map Prod.fst) from rfl]
      rw [ih]
      show (stepCycle L sz w8 _ (r k)).map Prod.fst = _
      unfold stepCycle
      simp only [pushV, pushD, pushE, List.get?_eq_getElem?] at hv hd he
      simp [hv, hd, he, qStateAt, memAt, pushV, pushD, pushE]

/-- The response delivered during cycle `k` is the triple of front entries of
the three pipelines, whenever those front entries exist. -/
theorem respAt_eq (L sz w8 : Nat) (mem0 : List Nat) (rv0 : List Bool)
    (rd0 : List Nat) (er0 : List Bool) (r : Nat → DutReq) (k : Nat)
    (v : Bool) (d : Nat) (e : Bool)
    (hL : 1 ≤ L) (h1 : rv0.length = L) (h2 : rd0.length = L) (h3 : er0.length = L)
    (hv : qDeliverAt L (pushV r) rv0 k = some v)
    (hd : qDeliverAt L (pushD sz w8 mem0 r) rd0 k = some d)
    (he : qDeliverAt L (pushE sz w8 r) er0 k = some e) :
    respAt L sz w8 ⟨mem0, rv0, rd0, er0⟩ r k = some ⟨v, d, e⟩ := by
  unfold respAt
  rw [simStateAt_eq L sz w8 mem0 rv0 rd0 er0 r hL h1 h2 h3 k]
  show (stepCycle L sz w8 _ (r k)).map Prod.snd = _
  unfold qDeliverAt at hv hd he
  unfold stepCycle
  simp only [pushV, pushD, pushE, List.get?_eq_getElem?] at hv hd he
  simp [hv, hd, he]

/-! ### C1: response latency -/

/-- C1 (amended): for every configured latency `L ≥ 1` and every request
sequence, the response pushed into the latency queue at cycle `T` (per-cycle
order push, deliver, advance) is delivered onto the DUT's inbound
memory-response signals at cycle `T + (L - 1)`, i.e. one cycle earlier than
the claimed `T + L`; the DUT's sequential logic therefore first samples it at
the rising edge of cycle `T + L`. -/
theorem c1_delivery_at_T_plus_L_minus_1 (L sz w8 : Nat) (mem0 : List Nat)
    (rv0 : List Bool) (rd0 : List Nat) (er0 : List Bool) (r : Nat → DutReq) (T : Nat)
    (hL : 1 ≤ L) (h1 : rv0.length = L) (h2 : rd0.length = L) (h3 : er0.length = L) :
    respAt L sz w8 ⟨mem0, rv0, rd0, er0⟩ r (T + (L - 1)) =
      some ⟨pushV r T, pushD sz w8 mem0 r T, pushE sz w8 r T⟩ :=
  respAt_eq L sz w8 mem0 rv0 rd0 er0 r (T + (L - 1)) _ _ _ hL h1 h2 h3
    (qDeliverAt_pushed L (pushV r) rv0 hL h1 T)
    (qDeliverAt_pushed L (pushD sz w8 mem0 r) rd0 hL h2 T)
    (qDeliverAt_pushed L (pushE sz w8 r) er0 hL h3 T)

/-- Witness for `c1_delivery_at_T_plus_L_minus_1` at latency 2 with a single
read request at cycle 0. -/
theorem c1_delivery_witness :
    1 ≤ 2 ∧ ([false, false] : List Bool).length = 2 ∧
      ([0, 0] : List Nat).length = 2 ∧ ([false, false] : List Bool).length = 2 ∧
      respAt 2 16 4 ⟨List.replicate 16 0, [false, false], [0, 0], [false, false]⟩
          oneReadAt0 (0 + (2 - 1)) =
        some ⟨pushV oneReadAt0 0, pushD 16 4 (List.replicate 16 0) oneReadAt0 0,
          pushE 16 4 oneReadAt0 0⟩ :=
  ⟨by decide, rfl, rfl, rfl,
    c1_delivery_at_T_plus_L_minus_1 2 16 4 (List.replicate 16 0) [false, false]
      [0, 0] [false, false] oneReadAt0 0 (by decide) rfl rfl rfl⟩

/-- Counterexample to C1 as stated: with latency `L = 1`, the valid response
pushed at cycle `T = 0` is on the inbound signals during cycle 0 itself, and
at the claimed delivery cycle `T + L = 1` the inbound valid signal is false. -/
theorem c1_counterexample_delivery_not_at_T_plus_L :
    pushV oneReadAt0 0 = true ∧
      (respAt 1 16 4 ⟨List.replicate 16 0, [false], [0], [false]⟩ oneReadAt0 0).map
          MemResp.rvalid = some true ∧
      (respAt 1 16 4 ⟨List.replicate 16 0, [false], [0], [false]⟩ oneReadAt0 1).map
          MemResp.rvalid = some false := by
  decide

/-! ### C2: zero-latency configuration -/

/-- C2: with `mem_latency = 0` the cycle loop is not pass-through; the very
first iteration indexes the zero-length queues (`mem_rvalid_queue[0]` on the
push, `mem_rvalid_queue[-1]` on the delivery, lines 165 and 176), an
out-of-bounds access modelled here as the step returning `none`. -/
theorem c2_zero_latency_out_of_bounds (sz w8 : Nat) (mem0 : List Nat) (r : DutReq) :
    stepCycle 0 sz w8 (progInit 0 mem0 [] []) r = none :=
  rfl

/-! ### C3: out-of-range error flag -/

theorem effAddr_lt (a sz w8 : Nat) (h : 0 < sz) : effAddr a sz w8 < sz :=
  Nat.lt_of_le_of_lt Nat.and_le_left (Nat.mod_lt a h)

/-- C3: the error flag pushed into the latency queue is `addr >= mem_sz`
computed on the already wrapped-and-aligned address (line 166), which is
always false for any positive memory size — the comparison is dead code, so a
request whose pre-modulo address is out of range is never flagged. -/
theorem c3_err_flag_never_set (sz w8 : Nat) (r : DutReq) (h : 0 < sz) :
    pushedErr sz w8 r = false := by
  have hlt := effAddr_lt r.addr sz w8 h
  simp only [pushedErr, decide_eq_false_iff_not]
  omega

/-- Witness for `c3_err_flag_never_set` at the failing input of the claim:
pre-modulo address 8 with memory size 4 (out of range before wrapping) still
gets error flag false. -/
theorem c3_err_flag_witness :
    0 < 4 ∧ pushedErr 4 4 ⟨true, 8, false, 0, 0⟩ = false :=
  ⟨by decide, c3_err_flag_never_set 4 4 ⟨true, 8, false, 0, 0⟩ (by decide)⟩

/-! ### C4: deterministic termination -/

theorem endCnt_zero_before (r : Nat → DutReq) (C : Nat)
    (hfirst : ∀ k, k < C → ¬((r k).req = true ∧ (r k).addr = 0)) :
    ∀ k, k ≤ C → endCnt r k = 0 := by
  intro k
  induction k with
  | zero => intro _; rfl
  | succ k ih =>
      intro hk
      have h0 : endCnt r k = 0 := ih (by omega)
      show (if 0 < endCnt r k ∨ ((r k).req = true ∧ (r k).addr = 0)
        then endCnt r k + 1 else endCnt r k) = 0
      rw [if_neg]
      · exact h0
      · rintro (h | h)
        · omega
        · exact hfirst k (by omega) h

theorem endCnt_after (r : Nat → DutReq) (C : Nat)
    (hC : (r C).req = true ∧ (r C).addr = 0)
    (hfirst : ∀ k, k < C → ¬((r k).req = true ∧ (r k).addr = 0)) :
    ∀ j, endCnt r (C + 1 + j) = j + 1 := by
  intro j
  induction j with
  | zero =>
      show (if 0 < endCnt r C ∨ ((r C).req = true ∧ (r C).addr = 0)
        then endCnt r C + 1 else endCnt r C) = 1
      rw [if_pos (Or.inr hC), endCnt_zero_before r C hfirst C (Nat.le_refl C)]
  | succ j ih =>
      show (if 0 < endCnt r (C + 1 + j) ∨ _ then endCnt r (C + 1 + j) + 1
        else endCnt r (C + 1 + j)) = j + 2
      simp only [ih]
      rw [if_pos (Or.inl (by omega))]

/-- C4 (amended): if the first valid request to address 0 appears at cycle `C`
and `extra_cycles ≥ 1`, the loop runs exactly `C + extra_cycles` cycles (the
counter then increments every cycle regardless of further activity).  For
`extra_cycles = 0` the loop body never runs, so the run halts at cycle 0
rather than at cycle `C` (see the counterexample). -/
theorem c4_halts_at_C_plus_extra (r : Nat → DutReq) (extra C : Nat)
    (hE : 1 ≤ extra)
    (hC : (r C).req = true ∧ (r C).addr = 0)
    (hfirst : ∀ k, k < C → ¬((r k).req = true ∧ (r k).addr = 0)) :
    haltsAt r extra (C + extra) := by
  constructor
  · rw [show C + extra = C + 1 + (extra - 1) from by omega,
      endCnt_after r C hC hfirst (extra - 1)]
    omega
  · intro k hk
    rcases le_or_lt k C with h | h
    · rw [endCnt_zero_before r C hfirst k h]; omega
    · obtain ⟨j, rfl⟩ : ∃ j, k = C + 1 + j := ⟨k - C - 1, by omega⟩
      rw [endCnt_after r C hC hfirst j]
      omega

/-- Witness for `c4_halts_at_C_plus_extra`: first zero-address request at
cycle 1, `extra_cycles = 5`, halt after exactly 6 cycles. -/
theorem c4_halts_witness :
    1 ≤ 5 ∧ ((zeroReqAt1 1).req = true ∧ (zeroReqAt1 1).addr = 0) ∧
      (∀ k, k < 1 → ¬((zeroReqAt1 k).req = true ∧ (zeroReqAt1 k).addr = 0)) ∧
      haltsAt zeroReqAt1 5 (1 + 5) :=
  ⟨by decide, by decide, by decide,
    c4_halts_at_C_plus_extra zeroReqAt1 5 1 (by decide) (by decide) (by decide)⟩

/-- Counterexample to C4 as stated at `extra_cycles = 0`: the DUT's first
zero-address request is at cycle `C = 1`, yet the loop halts before running
any cycle (at cycle 0), not at cycle `C + 0 = 1`. -/
theorem c4_counterexample_extra_zero :
    haltsAt zeroReqAt1 0 0 ∧ ¬haltsAt zeroReqAt1 0 (1 + 0) := by
  constructor
  · exact ⟨Nat.le_refl 0, fun k hk => absurd hk (Nat.not_lt_zero k)⟩
  · rintro ⟨-, h⟩
    exact absurd (h 0 (by omega)) (by omega)

/-! ### C5: byte-enable masked writes -/

theorem applyWrite_succ (mem : List Nat) (addr wdata be n : Nat) :
    applyWrite mem addr wdata be (n + 1) =
      (if be.testBit n then (applyWrite mem addr wdata be n).set (addr + n) (byteOf wdata n)
       else applyWrite mem addr wdata be n) := by
  unfold applyWrite
  rw [List.range_succ, List.foldl_append]
  rfl

theorem applyWrite_length (mem : List Nat) (addr wdata be : Nat) :
    ∀ w8, (applyWrite mem addr wdata be w8).length = mem.length := by
  intro w8
  induction w8 with
  | zero => rfl
  | succ n ih =>
      rw [applyWrite_succ]
      cases hb : be.testBit n with
      | false => rw [if_neg (by simp)]; exact ih
      | true => rw [if_pos rfl]; rw [List.length_set]; exact ih

theorem applyWrite_get?_clear (mem : List Nat) (addr wdata be : Nat) (j : Nat)
    (hbe : be.testBit j = false) :
    ∀ w8, (applyWrite mem addr wdata be w8).get? (addr + j) = mem.get? (addr + j) := by
  intro w8
  induction w8 with
  | zero => rfl
  | succ n ih =>
      rw [applyWrite_succ]
      cases hb : be.testBit n with
      | false => rw [if_neg (by simp)]; exact ih
      | true =>
          have hnj : addr + n ≠ addr + j := by
            intro hEq
            have hnj2 : n = j := by omega
            rw [hnj2, hbe] at hb
            exact Bool.noConfusion hb
          rw [if_pos rfl, List.get?_set_ne _ _ hnj]
          exact ih

theorem applyWrite_get?_set (mem : List Nat) (addr wdata be : Nat) :
    ∀ w8 j, j < w8 → be.testBit j = true → addr + j < mem.length →
      (applyWrite mem addr wdata be w8).get? (addr + j) = some (byteOf wdata j) := by
  intro w8
  induction w8 with
  | zero => intro j hj _ _; omega
  | succ n ih =>
      intro j hj hbe hlen
      rw [applyWrite_succ]
      rcases Nat.lt_or_ge j n with h | h
      · cases hb : be.testBit n with
        | false => rw [if_neg (by simp)]; exact ih j h hbe hlen
        | true =>
            rw [if_pos rfl, List.get?_set_ne _ _ (by omega)]
            exact ih j h hbe hlen
      · have hjn : j = n := by omega
        subst hjn
        rw [if_pos hbe]
        exact List.get?_set_eq_of_lt _ (by rw [applyWrite_length]; exact hlen)

theorem stepCycle_mem (L sz w8 : Nat) (st : SimState) (r : DutReq)
    (st2 : SimState) (resp : MemResp)
    (h : stepCycle L sz w8 st r = some (st2, resp)) :
    st2.mem = memAfter sz w8 st.mem r := by
  simp only [stepCycle] at h
  rcases hv : (st.rvalidQ.set 0 (pushedValid r)).get? (L - 1) with _ | v
  · rw [hv] at h; simp at h
  · rcases hd : (st.rdataQ.set 0 (pushedData sz w8 st.mem r)).get? (L - 1) with _ | d
    · rw [hv, hd] at h; simp at h
    · rcases he : (st.errQ.set 0 (pushedErr sz w8 r)).get? (L - 1) with _ | e
      · rw [hv, hd, he] at h; simp at h
      · rw [hv, hd, he] at h
        have h2 : (⟨memAfter sz w8 st.mem r,
            qadvance (st.rvalidQ.set 0 (pushedValid r)),
            qadvance (st.rdataQ.set 0 (pushedData sz w8 st.mem r)),
            qadvance (st.errQ.set 0 (pushedErr sz w8 r))⟩ : SimState) = st2 :=
          congrArg (fun p => p.1) (Option.some.inj h)
        rw [← h2]

/-- C5: after a cycle is processed, every byte of the addressed memory word
whose byte-enable bit is clear holds exactly the value it held before the
cycle (lines 160-163 only store lanes whose `mem_be_o` bit is set). -/
theorem c5_byte_enable_frame (L sz w8 : Nat) (st : SimState) (r : DutReq)
    (st2 : SimState) (resp : MemResp) (j : Nat)
    (hbe : r.be.testBit j = false)
    (hstep : stepCycle L sz w8 st r = some (st2, resp)) :
    st2.mem.get? (effAddr r.addr sz w8 + j) = st.mem.get? (effAddr r.addr sz w8 + j) := by
  rw [stepCycle_mem L sz w8 st r st2 resp hstep]
  unfold memAfter
  by_cases hw : (r.req && r.we) = true
  · rw [if_pos hw]
    exact applyWrite_get?_clear st.mem (effAddr r.addr sz w8) r.wdata r.be j hbe w8
  · rw [if_neg hw]

/-- Witness for `c5_byte_enable_frame`: a 16-bit-bus write with byte-enable
mask `0b10` updates byte 1 and leaves byte 0 of the word untouched. -/
theorem c5_byte_enable_witness :
    (2 : Nat).testBit 0 = false ∧
      stepCycle 1 4 2 ⟨[1, 2, 3, 4], [false], [0], [false]⟩ ⟨true, 0, true, 2, 1541⟩ =
        some (⟨[1, 6, 3, 4], [true], [1537], [false]⟩, ⟨true, 1537, false⟩) ∧
      (⟨[1, 6, 3, 4], [true], [1537], [false]⟩ : SimState).mem.get? (effAddr 0 4 2 + 0) =
        (⟨[1, 2, 3, 4], [false], [0], [false]⟩ : SimState).mem.get? (effAddr 0 4 2 + 0) :=
  ⟨by decide, by decide,
    c5_byte_enable_frame 1 4 2 ⟨[1, 2, 3, 4], [false], [0], [false]⟩
      ⟨true, 0, true, 2, 1541⟩ ⟨[1, 6, 3, 4], [true], [1537], [false]⟩
      ⟨true, 1537, false⟩ 0 (by decide) (by decide)⟩

/-! ### C10: write applied before read-data sampling -/

/-- C10: the read data pushed during a write cycle `T` (and delivered at cycle
`T + (L-1)`) is the word assembled from the memory image as it stands *after*
the cycle-`T` write (lines 160-163 precede the sampling in lines 167-169), and
the pushed/delivered valid flag equals the raw `mem_req_o`, also for write
requests (line 165). -/
theorem c10_write_before_sample (L sz w8 : Nat) (mem0 : List Nat)
    (rv0 : List Bool) (rd0 : List Nat) (er0 : List Bool) (r : Nat → DutReq) (T : Nat)
    (hL : 1 ≤ L) (h1 : rv0.length = L) (h2 : rd0.length = L) (h3 : er0.length = L) :
    (respAt L sz w8 ⟨mem0, rv0, rd0, er0⟩ r (T + (L - 1))).map MemResp.rdata =
        some (readWord (memAt sz w8 mem0 r (T + 1)) (effAddr (r T).addr sz w8) w8) ∧
      (respAt L sz w8 ⟨mem0, rv0, rd0, er0⟩ r (T + (L - 1))).map MemResp.rvalid =
        some (r T).req := by
  have h := respAt_eq L sz w8 mem0 rv0 rd0 er0 r (T + (L - 1)) _ _ _ hL h1 h2 h3
    (qDeliverAt_pushed L (pushV r) rv0 hL h1 T)
    (qDeliverAt_pushed L (pushD sz w8 mem0 r) rd0 hL h2 T)
    (qDeliverAt_pushed L (pushE sz w8 r) er0 hL h3 T)
  rw [h]
  constructor
  · simp [pushD, pushedData, memAt]
  · simp [pushV, pushedValid]

/-- Witness for `c10_write_before_sample`: latency 1, a write of byte `0xAB`
to address 0 at cycle 0; the response delivered that cycle already carries the
written byte. -/
theorem c10_write_before_sample_witness :
    1 ≤ 1 ∧ ([false] : List Bool).length = 1 ∧ ([0] : List Nat).length = 1 ∧
      ([false] : List Bool).length = 1 ∧
      ((respAt 1 8 4 ⟨List.replicate 8 0, [false], [0], [false]⟩ oneWriteAt0
            (0 + (1 - 1))).map MemResp.rdata =
          some (readWord (memAt 8 4 (List.replicate 8 0) oneWriteAt0 (0 + 1))
            (effAddr (oneWriteAt0 0).addr 8 4) 4) ∧
        (respAt 1 8 4 ⟨List.replicate 8 0, [false], [0], [false]⟩ oneWriteAt0
            (0 + (1 - 1))).map MemResp.rvalid = some (oneWriteAt0 0).req) :=
  ⟨by decide, rfl, rfl, rfl,
    c10_write_before_sample 1 8 4 (List.replicate 8 0) [false] [0] [false]
      oneWriteAt0 0 (by decide) rfl rfl rfl⟩

/-! ### C8: per-program reset -/

/-- C8 (amended): the per-program reset zero-fills the memory image and the
valid-flag queue only (lines 99 and 141-142); consequently `mem_rvalid_i` is
false during the first `L - 1` cycles of a program regardless of the residual
contents of the data and error queues, but `mem_rdata_i` and `mem_err_i`
during those cycles are the residual entries themselves, which a prior run
determines (see the counterexample). -/
theorem c8_valid_reset_masks_residue (L sz w8 k : Nat) (mem0 rd0 : List Nat)
    (er0 : List Bool) (r : Nat → DutReq)
    (hk : k + 1 < L) (h2 : rd0.length = L) (h3 : er0.length = L) :
    (respAt L sz w8 (progInit L mem0 rd0 er0) r k).map MemResp.rvalid = some false := by
  have hL : 1 ≤ L := by omega
  have h1 : (List.replicate L false).length = L := by simp
  have hgetrd : L - 1 - k < rd0.length := by omega
  have hgeter : L - 1 - k < er0.length := by omega
  have hv : qDeliverAt L (pushV r) (List.replicate L false) k = some false := by
    rw [qDeliverAt_stale L (pushV r) _ h1 k hk]
    rw [List.get?_eq_get (by simp; omega)]
    simp
  have hd : qDeliverAt L (pushD sz w8 mem0 r) rd0 k =
      some (rd0.get ⟨L - 1 - k, hgetrd⟩) := by
    rw [qDeliverAt_stale L _ rd0 h2 k hk]
    exact List.get?_eq_get hgetrd
  have he : qDeliverAt L (pushE sz w8 r) er0 k =
      some (er0.get ⟨L - 1 - k, hgeter⟩) := by
    rw [qDeliverAt_stale L _ er0 h3 k hk]
    exact List.get?_eq_get hgeter
  rw [show progInit L mem0 rd0 er0 = ⟨mem0, List.replicate L false, rd0, er0⟩ from rfl]
  rw [respAt_eq L sz w8 mem0 (List.replicate L false) rd0 er0 r k _ _ _ hL h1 h2 h3 hv hd he]
  rfl

/-- Witness for `c8_valid_reset_masks_residue`: latency 2, residual data queue
`[0, 99]`, first cycle of the new program delivers `mem_rvalid_i = false`. -/
theorem c8_valid_reset_witness :
    0 + 1 < 2 ∧ ([0, 99] : List Nat).length = 2 ∧
      ([false, false] : List Bool).length = 2 ∧
      (respAt 2 8 4 (progInit 2 (List.replicate 8 0) [0, 99] [false, false])
          idleBus 0).map MemResp.rvalid = some false :=
  ⟨by decide, rfl, rfl,
    c8_valid_reset_masks_residue 2 8 4 0 (List.replicate 8 0) [0, 99]
      [false, false] idleBus (by decide) rfl rfl⟩

/-- Counterexample to C8 as stated: two per-program initial states that differ
only in the residual `mem_rdata_queue` left by a prior run (not reinitialized
by lines 141-142) deliver different inbound signal values to the DUT already
at cycle 0 of the new program. -/
theorem c8_counterexample_residue_visible :
    respAt 2 8 4 residueA idleBus 0 ≠ respAt 2 8 4 residueB idleBus 0 := by
  decide

/-! ### C6: address wrapping in loader and dump paths -/

theorem int32_eq_self (x : Int) (h0 : 0 ≤ x) (h31 : x < 2 ^ 31) : int32 x = x := by
  unfold int32
  rw [Int.emod_eq_of_lt (by omega) (by omega)]
  omega

/-- C6 (amended): only the DUT request path reduces addresses modulo the image
size and aligns them (line 159); the program-image loader and the
reference/dump extraction apply no image-size modulo or bound.  The loader's
address register is a 32-bit `int` (so a huge directive address first
truncates to `int` width), but any directive whose byte address lies in
`[mem_sz, 2^31)` makes the loader access the byte buffer at that index `≥`
the memory size, and an out-of-range dump descriptor does the same. -/
theorem c6_only_dut_path_wraps (a sz w8 : Nat) (r : DutReq) (s e : Nat)
    (hsz : 0 < sz) (hs : s < e) (hout : sz ≤ s)
    (ha : 4 * a < 2 ^ 31) (hasz : sz ≤ 4 * a) :
    effAddr r.addr sz w8 < sz ∧
      ((4 * (a : Int)) ∈ loadAccesses [ProgItem.setAddr a, ProgItem.word 0] ∧
        ((sz : Int) ≤ 4 * (a : Int))) ∧
      (s ∈ dumpAccesses s e ∧ sz ≤ s) := by
  have h4a : int32 (4 * (a : Int)) = 4 * (a : Int) :=
    int32_eq_self _ (by omega) (by exact_mod_cast ha)
  refine ⟨effAddr_lt r.addr sz w8 hsz, ⟨?_, by exact_mod_cast hasz⟩, ?_, hout⟩
  · show (4 * (a : Int)) ∈
      (loadAccStep (loadAccStep (0, []) (ProgItem.setAddr a)) (ProgItem.word 0)).2
    rw [show loadAccStep (0, []) (ProgItem.setAddr a) = (int32 (4 * (a : Int)), []) from rfl,
      h4a]
    have h00 : int32 (4 * (a : Int) + ((0 : Nat) : Int)) = 4 * (a : Int) := by
      simpa using h4a
    show (4 * (a : Int)) ∈
      [int32 (4 * (a : Int) + ((0 : Nat) : Int)), int32 (4 * (a : Int) + ((1 : Nat) : Int)),
        int32 (4 * (a : Int) + ((2 : Nat) : Int)), int32 (4 * (a : Int) + ((3 : Nat) : Int))]
    rw [h00]
    exact List.mem_cons_self _ _
  · unfold dumpAccesses
    obtain ⟨m, hm⟩ : ∃ m, (e - s + 3) / 4 = m + 1 := ⟨(e - s + 3) / 4 - 1, by omega⟩
    rw [hm]
    simp [dumpAccessesN]

/-- Witness for `c6_only_dut_path_wraps`: image size 4096, loader directive
`@1000000` (byte address 67108864, in `int` range) and dump descriptor range
`[8000, 8008)`. -/
theorem c6_only_dut_path_wraps_witness :
    0 < 4096 ∧ 8000 < 8008 ∧ 4096 ≤ 8000 ∧
      4 * 16777216 < 2 ^ 31 ∧ 4096 ≤ 4 * 16777216 ∧
      (effAddr (⟨true, 5000, false, 0, 0⟩ : DutReq).addr 4096 4 < 4096 ∧
        ((4 * ((16777216 : Nat) : Int)) ∈
            loadAccesses [ProgItem.setAddr 16777216, ProgItem.word 0] ∧
          (((4096 : Nat) : Int) ≤ 4 * ((16777216 : Nat) : Int))) ∧
        (8000 ∈ dumpAccesses 8000 8008 ∧ 4096 ≤ 8000)) :=
  ⟨by decide, by decide, by decide, by decide, by decide,
    c6_only_dut_path_wraps 16777216 4096 4 ⟨true, 5000, false, 0, 0⟩ 8000 8008
      (by decide) (by decide) (by decide) (by decide) (by decide)⟩

/-- Counterexample to C6 as stated: the loader directive `@1000000` makes the
loader write `mem[67108864]` in a 4096-byte image (the address fits a 32-bit
`int` and no modulo is applied, lines 107 and 115), and a dump descriptor
starting at 8000 makes the dump read `mem[8000]` (line 207). -/
theorem c6_counterexample_no_modulo :
    ((4096 : Int) ≤ 67108864 ∧
        (67108864 : Int) ∈ loadAccesses [ProgItem.setAddr 16777216, ProgItem.word 0]) ∧
      (4096 ≤ 8000 ∧ 8000 ∈ dumpAccesses 8000 8008) := by
  decide

/-! ### C7: output-file open failure -/

/-- C7: when `fopen` of a reference/dump output file fails, the block reports
the error but still performs every per-word `fprintf` and the final `fclose`
through the NULL handle (lines 126-136: the failure branch only prints; the
write loop is unconditional) — writing is not skipped. -/
theorem c7_write_attempted_through_null_handle :
    FileOp.reportError ∈ outputBlockOps false [1, 1, 0, 0] 0 4 ∧
      FileOp.writeLine false 257 ∈ outputBlockOps false [1, 1, 0, 0] 0 4 ∧
      FileOp.closeFile false ∈ outputBlockOps false [1, 1, 0, 0] 0 4 := by
  decide

/-! ### C9: loader/dump round trip -/

theorem byteOf_lt (w i : Nat) : byteOf w i < 2 ^ 8 :=
  Nat.mod_lt _ (by norm_num)

theorem lor_shiftLeft_eq_add (a b k : Nat) (ha : a < 2 ^ k) :
    a ||| b <<< k = b <<< k + a := by
  have h1 : b <<< k = 2 ^ k * b := by rw [Nat.shiftLeft_eq, Nat.mul_comm]
  apply Nat.eq_of_testBit_eq
  intro j
  rw [h1, Nat.testBit_mul_pow_two_add b ha j, Nat.testBit_or, Nat.testBit_mul_pow_two]
  rcases Nat.lt_or_ge j k with h | h
  · rw [if_pos h]
    simp [show ¬(j ≥ k) from by omega]
  · rw [if_neg (by omega)]
    have ha2 : Nat.testBit a j = false :=
      Nat.testBit_lt_two_pow (Nat.lt_of_lt_of_le ha (Nat.pow_le_pow_right (by omega) h))
    simp [ha2, show j ≥ k from h]

theorem writeWordLE_eq_applyWrite (mem : List Nat) (addr w : Nat) :
    writeWordLE mem addr w = applyWrite mem addr w 15 4 := rfl

theorem writeWordLE_length (mem : List Nat) (addr w : Nat) :
    (writeWordLE mem addr w).length = mem.length := by
  rw [writeWordLE_eq_applyWrite]
  exact applyWrite_length mem addr w 15 4

theorem writeWordLE_get?_lt (mem : List Nat) (addr w t : Nat) (h : t < addr) :
    (writeWordLE mem addr w).get? t = mem.get? t := by
  unfold writeWordLE
  rw [show List.range 4 = [0, 1, 2, 3] from rfl]
  simp only [List.foldl_cons, List.foldl_nil]
  rw [List.get?_set_ne _ _ (by omega), List.get?_set_ne _ _ (by omega),
    List.get?_set_ne _ _ (by omega), List.get?_set_ne _ _ (by omega)]

theorem writeWordLE_get?_byte (mem : List Nat) (addr w : Nat) (i : Nat)
    (hi : i < 4) (hlen : addr + i < mem.length) :
    (writeWordLE mem addr w).get? (addr + i) = some (byteOf w i) := by
  rw [writeWordLE_eq_applyWrite]
  apply applyWrite_get?_set mem addr w 15 4 i hi _ hlen
  interval_cases i <;> rfl

theorem readWordLE_congr (m1 m2 : List Nat) (ad : Nat)
    (h : ∀ t, t < ad + 4 → m1.get? t = m2.get? t) :
    readWordLE m1 ad = readWordLE m2 ad := by
  unfold readWordLE
  simp only [List.getD_eq_get?]
  rw [h ad (by omega), h (ad + 1) (by omega), h (ad + 2) (by omega), h (ad + 3) (by omega)]

theorem readWordLE_writeWordLE (mem : List Nat) (addr w : Nat)
    (hw : w < 2 ^ 32) (hlen : addr + 4 ≤ mem.length) :
    readWordLE (writeWordLE mem addr w) addr = w := by
  have h0 : (writeWordLE mem addr w).get? addr = some (byteOf w 0) := by
    have h := writeWordLE_get?_byte mem addr w 0 (by omega) (by omega)
    simpa using h
  have h1 := writeWordLE_get?_byte mem addr w 1 (by omega) (by omega)
  have h2 := writeWordLE_get?_byte mem addr w 2 (by omega) (by omega)
  have h3 := writeWordLE_get?_byte mem addr w 3 (by omega) (by omega)
  have hB : byteOf w 1 <<< 8 + byteOf w 0 < 2 ^ 16 := by
    have hx := byteOf_lt w 1
    have hy := byteOf_lt w 0
    rw [Nat.shiftLeft_eq]
    norm_num at hx hy ⊢
    omega
  have hC : byteOf w 2 <<< 16 + (byteOf w 1 <<< 8 + byteOf w 0) < 2 ^ 24 := by
    have hx := byteOf_lt w 2
    rw [Nat.shiftLeft_eq]
    norm_num at hx hB ⊢
    omega
  unfold readWordLE
  simp only [List.getD_eq_get?, h0, h1, h2, h3, Option.getD_some]
  rw [lor_shiftLeft_eq_add _ _ 8 (byteOf_lt w 0)]
  rw [lor_shiftLeft_eq_add _ _ 16 hB]
  rw [lor_shiftLeft_eq_add _ _ 24 hC]
  have hw2 : w < 4294967296 := hw
  simp only [byteOf, Nat.shiftLeft_eq, Nat.shiftRight_eq_div_pow]
  norm_num
  omega

theorem loadWords_get?_lt :
    ∀ (ws : List Nat) (m : List Nat) (ad t : Nat), t < ad →
      ((ws.map ProgItem.word).foldl loadStep (m, ad)).1.get? t = m.get? t := by
  intro ws
  induction ws with
  | nil => intro m ad t _; rfl
  | cons w rest ih =>
      intro m ad t h
      show ((rest.map ProgItem.word).foldl loadStep (writeWordLE m ad w, ad + 4)).1.get? t =
        m.get? t
      rw [ih (writeWordLE m ad w) (ad + 4) t (by omega),
        writeWordLE_get?_lt m ad w t h]

theorem loadWords_length :
    ∀ (ws : List Nat) (m : List Nat) (ad : Nat),
      ((ws.map ProgItem.word).foldl loadStep (m, ad)).1.length = m.length := by
  intro ws
  induction ws with
  | nil => intro m ad; rfl
  | cons w rest ih =>
      intro m ad
      show ((rest.map ProgItem.word).foldl loadStep (writeWordLE m ad w, ad + 4)).1.length =
        m.length
      rw [ih (writeWordLE m ad w) (ad + 4), writeWordLE_length]

theorem dumpWords_load :
    ∀ (ws : List Nat) (m : List Nat) (ad : Nat),
      (∀ w ∈ ws, w < 2 ^ 32) → ad + 4 * ws.length ≤ m.length →
      dumpWords ((ws.map ProgItem.word).foldl loadStep (m, ad)).1 ad ws.length = ws := by
  intro ws
  induction ws with
  | nil => intro m ad _ _; rfl
  | cons w rest ih =>
      intro m ad hw hlen
      have hlen2 : (w :: rest).length = rest.length + 1 := rfl
      rw [hlen2] at hlen
      show readWordLE ((rest.map ProgItem.word).foldl loadStep (writeWordLE m ad w, ad + 4)).1 ad ::
          dumpWords ((rest.map ProgItem.word).foldl loadStep (writeWordLE m ad w, ad + 4)).1
            (ad + 4) rest.length =
        w :: rest
      have hhead : readWordLE
          ((rest.map ProgItem.word).foldl loadStep (writeWordLE m ad w, ad + 4)).1 ad = w := by
        rw [readWordLE_congr _ (writeWordLE m ad w) ad
          (fun t ht => loadWords_get?_lt rest (writeWordLE m ad w) (ad + 4) t ht)]
        exact readWordLE_writeWordLE m ad w (hw w (by simp)) (by omega)
      have htail : dumpWords
          ((rest.map ProgItem.word).foldl loadStep (writeWordLE m ad w, ad + 4)).1
            (ad + 4) rest.length = rest :=
        ih (writeWordLE m ad w) (ad + 4) (fun x hx => hw x (by simp [hx]))
          (by rw [writeWordLE_length]; omega)
      rw [hhead, htail]

/-- C9: round trip of loader and dumper — loading a word list at word address
`a` (directive `@a` followed by the words) and immediately dumping the byte
range `[4a, 4a + 4n)` stepped by 4 reproduces exactly the 32-bit words the
loader wrote, each assembled little-endian from the image (lines 102-120 write
and lines 131-134 re-assemble in the same byte order). -/
theorem c9_load_dump_roundtrip (mem : List Nat) (a : Nat) (ws : List Nat)
    (hw : ∀ w ∈ ws, w < 2 ^ 32)
    (hlen : 4 * a + 4 * ws.length ≤ mem.length) :
    dumpRange (loadImage mem (ProgItem.setAddr a :: ws.map ProgItem.word)).1
      (4 * a) (4 * a + 4 * ws.length) = ws := by
  show dumpRange ((ws.map ProgItem.word).foldl loadStep (mem, 4 * a)).1
    (4 * a) (4 * a + 4 * ws.length) = ws
  unfold dumpRange
  rw [show (4 * a + 4 * ws.length - 4 * a + 3) / 4 = ws.length from by omega]
  exact dumpWords_load ws mem (4 * a) hw (by omega)

/-- Witness for `c9_load_dump_roundtrip`: two words (including the largest
32-bit value) loaded at word address 0 of a 16-byte image, dumped back
verbatim. -/
theorem c9_load_dump_roundtrip_witness :
    (∀ w ∈ ([1, 4294967295] : List Nat), w < 2 ^ 32) ∧
      4 * 0 + 4 * ([1, 4294967295] : List Nat).length ≤
        (List.replicate 16 0 : List Nat).length ∧
      dumpRange (loadImage (List.replicate 16 0)
          (ProgItem.setAddr 0 :: ([1, 4294967295] : List Nat).map ProgItem.word)).1
        (4 * 0) (4 * 0 + 4 * ([1, 4294967295] : List Nat).length) = [1, 4294967295] :=
  ⟨by decide, by decide,
    c9_load_dump_roundtrip (List.replicate 16 0) 0 [1, 4294967295]
      (by decide) (by decide)⟩
